import Mathlib

/-!
Verification of the DAG normalization and execution engine of `ddsp/dags.py`
(class `DAGLayer`: `format_dag`, `__init__`, `run_dag`).

Shallow embedding conventions:
* Python values flowing through the graph are modelled by the inductive `V`
  (integers, tuples, and string-keyed dictionaries).
* Python `dict`s are modelled as association lists with Python's update
  semantics: assignment replaces the value in place when the key is present
  (keeping insertion order) and appends otherwise.
* Exceptions (`KeyError`, `AttributeError`, `ValueError`,
  `UnboundLocalError`) are modelled with `Except Err`.
* `logging.info` calls are modelled by an explicit log (a `List LogEntry`)
  threaded through execution, so that the effect of `verbose` is observable.
* The collaborators `core.nested_lookup` and `core.to_dict` live in
  `ddsp/core.py`, which is not part of the sources under verification; they
  are modelled from the spec's interface contracts (section 6) and marked
  `Modelled from the spec:` below.
-/

/-- Values flowing through the DAG: scalars (modelled as integers), tuples of
values, and string-keyed dictionaries (Python dicts as ordered association
lists). -/
inductive V where
  | num : Int → V
  | tup : List V → V
  | dict : List (String × V) → V
  deriving Repr

/-- Python `d[k]` on a dict modelled as first-match lookup in the association
list (a faithful model because Python dict keys are unique). -/
def dlookup {α : Type} (k : String) : List (String × α) → Option α
  | [] => none
  | (k', v) :: rest => if k' = k then some v else dlookup k rest

/-- Python `d[k] = v` on a dict: replace the value in place when the key is
present (keeping insertion order), append otherwise. -/
def dinsert {α : Type} (k : String) (v : α) : List (String × α) → List (String × α)
  | [] => [(k, v)]
  | (k', v') :: rest => if k' = k then (k, v) :: rest else (k', v') :: dinsert k v rest

/-- Python `d.update(u)`: insert every pair of `u` into `d`, in order. -/
def dupdate {α : Type} (d u : List (String × α)) : List (String × α) :=
  u.foldl (fun acc p => dinsert p.1 p.2 acc) d

/-- Errors raised during normalization/execution, mirroring the Python
exceptions that can escape `DAGLayer.run_dag`. -/
inductive Err where
  | keyError : String → Err
  | attributeError : String → Err
  | valueError : Err
  | unboundLocal : Err
  deriving DecidableEq, Repr

/-- One `logging.info` record emitted by `run_dag` when `verbose` is on:
either the pre-invocation record (module key and input keys, lines 166-169)
or the post-invocation record (module key, lines 185-187). -/
inductive LogEntry where
  | inLog : String → List String → LogEntry
  | outLog : String → LogEntry
  deriving DecidableEq, Repr

/-- Character-level worker for `splitSlash`. -/
def splitSlashAux : List Char → List Char → List String
  | [], acc => [String.mk acc.reverse]
  | c :: cs, acc =>
    if c = '/' then String.mk acc.reverse :: splitSlashAux cs []
    else splitSlashAux cs (c :: acc)

/-- Python `key.split('/')` on the nested key strings. -/
def splitSlash (s : String) : List String :=
  splitSlashAux s.toList []

/-- Modelled from the spec: the path-traversal core of the nested-lookup
collaborator `core.nested_lookup` (section 6): each path segment indexes into
the current sub-dictionary; a missing segment, or indexing a non-dictionary,
is a lookup error naming the offending segment. -/
def nested_path : List String → V → Except Err V
  | [], v => Except.ok v
  | k :: rest, V.dict d =>
    match dlookup k d with
    | some v => nested_path rest v
    | none => Except.error (Err.keyError k)
  | k :: _, _ => Except.error (Err.keyError k)

/-- Modelled from the spec: the nested-lookup collaborator
`core.nested_lookup(key, namespace)` (section 6): the key is split on the
delimiter `/` and the segments are resolved in turn against the nested
namespace. -/
def nested_lookup (key : String) (ns : List (String × V)) : Except Err V :=
  nested_path (splitSlash key) (V.dict ns)

/-- Python iteration over a possibly-scalar return value: a tuple yields its
elements, anything else is a single value. -/
def as_values : V → List V
  | V.tup xs => xs
  | v => [v]

/-- Modelled from the spec: the result-shaping collaborator
`core.to_dict(raw_result, output_keys)` (section 6 and step 5 of 4.3): a
mapping passes through; otherwise the values are zipped with `output_keys`
(or with positional default labels when `output_keys` is absent), and an
arity mismatch is a fatal error. -/
def to_dict (x : V) (keys : Option (List String)) : Except Err (List (String × V)) :=
  match x with
  | V.dict d => Except.ok d
  | x =>
    let vs := as_values x
    let ks := match keys with
      | some ks => ks
      | none => (List.range vs.length).map toString
    if ks.length = vs.length then Except.ok (ks.zip vs) else Except.error Err.valueError

/-- A module instance: its identity name (`module.name`), the duck-typed
capability surface probed by `is_loss`/`is_processor` (presence of the
attributes `get_losses_dict`, `get_signal`, `get_controls`), its `__call__`
behaviour (positional arguments plus the `return_outputs_dict` flag), and its
`get_losses_dict` behaviour. -/
structure DagModule where
  name : String
  hasGetSignal : Bool
  hasGetControls : Bool
  hasGetLossesDict : Bool
  call : List V → Bool → V
  getLossesDict : List V → V

/-- Duck typing, dags.py line 44: `is_loss = lambda v: hasattr(v, 'get_losses_dict')`. -/
def is_loss (m : DagModule) : Bool := m.hasGetLossesDict

/-- Duck typing, dags.py line 45: `is_processor = lambda v: hasattr(v, 'get_signal') and hasattr(v, 'get_controls')`. -/
def is_processor (m : DagModule) : Bool := m.hasGetSignal && m.hasGetControls

/-- The first element of a DAG node: either a module name (string) or a live
module instance. -/
inductive ModuleRef where
  | name : String → ModuleRef
  | inst : DagModule → ModuleRef

/-- A DAG node `['module', ['input_key', ...], ['output_key', ...]]`; the
output-key list is optional (`node[2] if len(node) > 2 else None`). -/
structure RawNode where
  ref : ModuleRef
  input_keys : List String
  output_keys : Option (List String)

/-- Worker for `format_dag`, mirroring its loop over the node list: the
accumulated `modules` dict is threaded left to right, and each node with an
inline instance is rewritten to reference the instance's name. -/
def format_dag_loop : List RawNode → List (String × DagModule) →
    List RawNode × List (String × DagModule)
  | [], modules => ([], modules)
  | node :: rest, modules =>
    match node.ref with
    | ModuleRef.inst m =>
      let step := format_dag_loop rest (dinsert m.name m modules)
      ({ node with ref := ModuleRef.name m.name } :: step.1, step.2)
    | ModuleRef.name _ =>
      let step := format_dag_loop rest modules
      (node :: step.1, step.2)

/-- `DAGLayer.format_dag` (dags.py lines 114-128): remove modules from the
dag and replace them with module names, returning the rewritten dag and the
dict of extracted modules. -/
def format_dag (dag : List RawNode) : List RawNode × List (String × DagModule) :=
  format_dag_loop dag []

/-- The state of a constructed `DAGLayer`: the formatted dag, the modules set
as attributes of the layer, and `module_names`. -/
structure DAGLayer where
  dag : List RawNode
  modules : List (String × DagModule)
  module_names : List String

/-- `DAGLayer.__init__` (dags.py lines 92-107): keep the module-valued
keyword arguments, format the dag, merge the extracted modules into the
keyword modules (`modules.update(dag_modules)`), and record the resulting
key list as `module_names`. -/
def DAGLayer.init (kwarg_modules : List (String × DagModule)) (dag : List RawNode) : DAGLayer :=
  let fd := format_dag dag
  let modules := dupdate kwarg_modules fd.2
  { dag := fd.1, modules := modules, module_names := modules.map Prod.fst }

/-- The list comprehension `[core.nested_lookup(key, outputs) for key in
input_keys]` (dags.py line 164): resolve each input key in turn, failing on
the first missing path. -/
def resolve : List String → List (String × V) → Except Err (List V)
  | [], _ => Except.ok []
  | k :: ks, outputs =>
    match nested_lookup k outputs with
    | Except.error e => Except.error e
    | Except.ok v =>
      match resolve ks outputs with
      | Except.error e => Except.error e
      | Except.ok vs => Except.ok (v :: vs)

/-- Capability dispatch (dags.py lines 171-180): processor modules are called
with `return_outputs_dict=True`, else loss modules via `get_losses_dict`,
else the module is called as a plain network module. -/
def call_module (m : DagModule) (args : List V) : V :=
  if is_processor m then m.call args true
  else if is_loss m then m.getLossesDict args
  else m.call args false

/-- The node loop of `run_dag` (dags.py lines 156-190), carrying the output
namespace, the loop-local `module_outputs` variable (None before the first
iteration, mirroring the unbound Python local), and the log. -/
def run_dag_loop (layer : DAGLayer) : List RawNode → List (String × V) →
    Option (List (String × V)) → Bool → List LogEntry →
    Except Err (List (String × V) × Option (List (String × V)) × List LogEntry)
  | [], outputs, last, _, log => Except.ok (outputs, last, log)
  | node :: rest, outputs, _last, verbose, log =>
    match node.ref with
    | ModuleRef.inst _ => Except.error (Err.attributeError "module key is not a string")
    | ModuleRef.name module_key =>
      match dlookup module_key layer.modules with
      | none => Except.error (Err.attributeError module_key)
      | some module =>
        match resolve node.input_keys outputs with
        | Except.error e => Except.error e
        | Except.ok args =>
          let log := if verbose then log ++ [LogEntry.inLog module_key node.input_keys] else log
          let module_outputs := call_module module args
          match (match module_outputs with
                 | V.dict d => Except.ok d
                 | x => to_dict x node.output_keys) with
          | Except.error e => Except.error e
          | Except.ok mo =>
            let log := if verbose then log ++ [LogEntry.outLog module_key] else log
            run_dag_loop layer rest (dinsert module_key (V.dict mo) outputs) (some mo) verbose log

/-- Namespace initialization of `run_dag` (dags.py lines 149-153):
`outputs = {'inputs': inputs}` followed by `outputs.update(inputs)` (the flat
backward-compatibility merge). -/
def init_outputs (inputs : List (String × V)) : List (String × V) :=
  dupdate [("inputs", V.dict inputs)] inputs

/-- `DAGLayer.run_dag` (dags.py lines 135-196): initialize the namespace,
run every node in order, then alias the final module output under the
reserved key `out`; with an empty dag the Python local `module_outputs` is
unbound at line 194 and the run fails. -/
def run_dag (layer : DAGLayer) (inputs : List (String × V)) (verbose : Bool) :
    Except Err (List (String × V) × List LogEntry) :=
  match run_dag_loop layer layer.dag (init_outputs inputs) none verbose [] with
  | Except.error e => Except.error e
  | Except.ok (outputs, last, log) =>
    match last with
    | none => Except.error Err.unboundLocal
    | some mo => Except.ok (dinsert "out" (V.dict mo) outputs, log)

/-- `DAGLayer.call` (dags.py lines 130-132): delegates to `run_dag` without
passing `verbose`, so `run_dag`'s declared default `verbose=True` applies. -/
def DAGLayer.call (layer : DAGLayer) (inputs : List (String × V)) :
    Except Err (List (String × V) × List LogEntry) :=
  run_dag layer inputs true

/-- The spec's concrete-scenario module: a plain network module named
`double` with no processor or loss capability, whose default call computes
`y = 2 * x` and returns the bare scalar. -/
def doubleModule : DagModule :=
  { name := "double"
    hasGetSignal := false
    hasGetControls := false
    hasGetLossesDict := false
    call := fun args _ =>
      match args with
      | [V.num x] => V.num (2 * x)
      | _ => V.tup []
    getLossesDict := fun _ => V.dict [] }

/-- The spec's concrete-scenario node `("double", ["inputs/x"], ["y"])`. -/
def doubleNode : RawNode :=
  { ref := ModuleRef.name "double", input_keys := ["inputs/x"], output_keys := some ["y"] }

/-- The layer of the concrete scenario: graph `[("double", ["inputs/x"], ["y"])]`
with `double` registered as a keyword module. -/
def doubleLayer : DAGLayer :=
  DAGLayer.init [("double", doubleModule)] [doubleNode]

/-- The scenario's runtime input mapping `{"x": 3}`. -/
def doubleInputs : List (String × V) := [("x", V.num 3)]

/-- The output namespace the spec expects from the concrete scenario. -/
def doubleExpected : List (String × V) :=
  [("inputs", V.dict [("x", V.num 3)]),
   ("x", V.num 3),
   ("double", V.dict [("y", V.num 6)]),
   ("out", V.dict [("y", V.num 6)])]

/-- C1: running the executor on the graph `[("double", ["inputs/x"], ["y"])]`
with registered default-call module `double` (computing `y = 2*x`, returning
a bare scalar) on input `{"x": 3}` yields exactly the namespace
`{"inputs": {"x": 3}, "x": 3, "double": {"y": 6}, "out": {"y": 6}}`, whether
or not diagnostics are enabled. -/
theorem run_dag_double_scenario :
    run_dag doubleLayer doubleInputs false = Except.ok (doubleExpected, []) ∧
    Except.map Prod.fst (run_dag doubleLayer doubleInputs true) = Except.ok doubleExpected :=
  ⟨rfl, rfl⟩

theorem dlookup_dinsert {α : Type} (n k : String) (v : α) (d : List (String × α)) :
    dlookup n (dinsert k v d) = if k = n then some v else dlookup n d := by
  induction d with
  | nil => simp [dinsert, dlookup]
  | cons p rest ih =>
    obtain ⟨k', v'⟩ := p
    by_cases hk : k' = k
    · subst hk
      by_cases hn : k' = n <;> simp [dinsert, dlookup, hn]
    · by_cases hn : k' = n
      · subst hn
        have hne : ¬ k = k' := fun h => hk h.symm
        simp [dinsert, dlookup, hk, hne]
      · simp [dinsert, dlookup, hk, hn, ih]

theorem dlookup_mem_keys {α : Type} (n : String) (m : α) (d : List (String × α))
    (h : dlookup n d = some m) : n ∈ d.map Prod.fst := by
  induction d with
  | nil => simp [dlookup] at h
  | cons p rest ih =>
    obtain ⟨k', v'⟩ := p
    by_cases hn : k' = n
    · subst hn
      simp
    · simp only [dlookup, if_neg hn] at h
      simp [ih h]

theorem keys_dinsert {α : Type} (k : String) (v : α) (d : List (String × α)) :
    (dinsert k v d).map Prod.fst =
      if k ∈ d.map Prod.fst then d.map Prod.fst else d.map Prod.fst ++ [k] := by
  induction d with
  | nil => simp [dinsert]
  | cons p rest ih =>
    obtain ⟨k', v'⟩ := p
    by_cases hk : k' = k
    · subst hk
      simp [dinsert]
    · have hne : ¬ k = k' := fun h => hk h.symm
      simp only [dinsert, if_neg hk, List.map_cons]
      rw [ih]
      by_cases hmem : k ∈ rest.map Prod.fst
      · simp [hmem, hne]
      · simp [hmem, hne]

theorem mem_keys_dinsert {α : Type} (n k : String) (v : α) (d : List (String × α)) :
    n ∈ (dinsert k v d).map Prod.fst ↔ n = k ∨ n ∈ d.map Prod.fst := by
  rw [keys_dinsert]
  by_cases hmem : k ∈ d.map Prod.fst
  · simp only [if_pos hmem]
    constructor
    · exact Or.inr
    · rintro (rfl | h)
      · exact hmem
      · exact h
  · simp only [if_neg hmem, List.mem_append, List.mem_singleton]
    tauto

theorem nodup_keys_dinsert {α : Type} (k : String) (v : α) (d : List (String × α))
    (h : (d.map Prod.fst).Nodup) : ((dinsert k v d).map Prod.fst).Nodup := by
  rw [keys_dinsert]
  by_cases hmem : k ∈ d.map Prod.fst
  · simpa [hmem] using h
  · simp only [if_neg hmem]
    simpa [List.nodup_append, hmem] using h

theorem dlookup_dupdate {α : Type} (n : String) (d u : List (String × α))
    (h : (u.map Prod.fst).Nodup) :
    dlookup n (dupdate d u) =
      match dlookup n u with
      | some m => some m
      | none => dlookup n d := by
  induction u generalizing d with
  | nil => simp [dupdate, dlookup]
  | cons p rest ih =>
    obtain ⟨k, v⟩ := p
    rw [List.map_cons] at h
    have hk : k ∉ rest.map Prod.fst := (List.nodup_cons.mp h).1
    have hrest : (rest.map Prod.fst).Nodup := (List.nodup_cons.mp h).2
    have hstep : dupdate d ((k, v) :: rest) = dupdate (dinsert k v d) rest := rfl
    rw [hstep, ih (dinsert k v d) hrest]
    cases hu : dlookup n rest with
    | some m =>
      have hn : n ∈ rest.map Prod.fst := dlookup_mem_keys n m rest hu
      have hkn : ¬ k = n := fun he => hk (he ▸ hn)
      simp [dlookup, hkn, hu]
    | none =>
      rw [dlookup_dinsert]
      by_cases hkn : k = n
      · subst hkn
        simp [dlookup, hu]
      · simp [dlookup, hkn, hu]

theorem mem_keys_dupdate {α : Type} (n : String) (d u : List (String × α)) :
    n ∈ (dupdate d u).map Prod.fst ↔ n ∈ d.map Prod.fst ∨ n ∈ u.map Prod.fst := by
  induction u generalizing d with
  | nil => simp [dupdate]
  | cons p rest ih =>
    obtain ⟨k, v⟩ := p
    have hstep : dupdate d ((k, v) :: rest) = dupdate (dinsert k v d) rest := rfl
    rw [hstep, ih (dinsert k v d)]
    rw [mem_keys_dinsert]
    simp only [List.map_cons, List.mem_cons]
    tauto

/-- The per-node effect of normalization, used to state what `format_dag`
does to the node list: an inline instance is replaced by its identity name,
a name passes through unchanged. -/
def norm_node (node : RawNode) : RawNode :=
  match node.ref with
  | ModuleRef.name _ => node
  | ModuleRef.inst m => { node with ref := ModuleRef.name m.name }

theorem format_dag_loop_fst (dag : List RawNode) :
    ∀ mods, (format_dag_loop dag mods).1 = dag.map norm_node := by
  induction dag with
  | nil => intro mods; rfl
  | cons node rest ih =>
    intro mods
    cases hr : node.ref with
    | inst m => simp [format_dag_loop, hr, norm_node, ih]
    | name s => simp [format_dag_loop, hr, norm_node, ih]

theorem format_dag_loop_snd_sound (dag : List RawNode) :
    ∀ mods n m, (n, m) ∈ (format_dag_loop dag mods).2 →
      (n, m) ∈ mods ∨ (n = m.name ∧ ∃ node ∈ dag, node.ref = ModuleRef.inst m) := by
  induction dag with
  | nil => intro mods n m h; exact Or.inl h
  | cons node rest ih =>
    intro mods n m h
    cases hr : node.ref with
    | inst m' =>
      simp only [format_dag_loop, hr] at h
      rcases ih (dinsert m'.name m' mods) n m h with hmem | hnew
      · have : (n, m) = (m'.name, m') ∨ (n, m) ∈ mods := by
          clear h ih
          induction mods with
          | nil => simpa [dinsert] using hmem
          | cons p ms ihm =>
            obtain ⟨k', v'⟩ := p
            by_cases hk : k' = m'.name
            · subst hk
              simp only [dinsert, if_pos rfl] at hmem
              rcases List.mem_cons.mp hmem with h1 | h1
              · exact Or.inl h1
              · exact Or.inr (List.mem_cons_of_mem _ h1)
            · simp only [dinsert, if_neg hk] at hmem
              rcases List.mem_cons.mp hmem with h1 | h1
              · exact Or.inr (h1 ▸ List.mem_cons_self _ _)
              · rcases ihm h1 with h2 | h2
                · exact Or.inl h2
                · exact Or.inr (List.mem_cons_of_mem _ h2)
        rcases this with heq | hmods
        · obtain ⟨rfl, rfl⟩ := Prod.mk.injEq .. ▸ heq
          refine Or.inr ⟨rfl, node, List.mem_cons_self _ _, hr⟩
        · exact Or.inl hmods
      · obtain ⟨hn, node', hnode', href⟩ := hnew
        exact Or.inr ⟨hn, node', List.mem_cons_of_mem _ hnode', href⟩
    | name s =>
      simp only [format_dag_loop, hr] at h
      rcases ih mods n m h with hmem | hnew
      · exact Or.inl hmem
      · obtain ⟨hn, node', hnode', href⟩ := hnew
        exact Or.inr ⟨hn, node', List.mem_cons_of_mem _ hnode', href⟩

theorem format_dag_loop_keys_mono (dag : List RawNode) :
    ∀ mods n, n ∈ mods.map Prod.fst → n ∈ (format_dag_loop dag mods).2.map Prod.fst := by
  induction dag with
  | nil => intro mods n h; exact h
  | cons node rest ih =>
    intro mods n h
    cases hr : node.ref with
    | inst m =>
      simp only [format_dag_loop, hr]
      exact ih _ n ((mem_keys_dinsert n m.name m mods).mpr (Or.inr h))
    | name s =>
      simp only [format_dag_loop, hr]
      exact ih _ n h

theorem format_dag_loop_keys_complete (dag : List RawNode) :
    ∀ mods node, node ∈ dag → ∀ m, node.ref = ModuleRef.inst m →
      m.name ∈ (format_dag_loop dag mods).2.map Prod.fst := by
  induction dag with
  | nil => intro mods node h; exact absurd h (List.not_mem_nil node)
  | cons node' rest ih =>
    intro mods node hmem m href
    rcases List.mem_cons.mp hmem with rfl | hmem'
    · simp only [format_dag_loop, href]
      exact format_dag_loop_keys_mono rest _ m.name
        ((mem_keys_dinsert m.name m.name m mods).mpr (Or.inl rfl))
    · cases hr : node'.ref with
      | inst m' =>
        simp only [format_dag_loop, hr]
        exact ih _ node hmem' m href
      | name s =>
        simp only [format_dag_loop, hr]
        exact ih _ node hmem' m href

theorem format_dag_loop_pure (dag : List RawNode) :
    ∀ mods, (∀ node ∈ dag, ∀ m, node.ref ≠ ModuleRef.inst m) →
      format_dag_loop dag mods = (dag, mods) := by
  induction dag with
  | nil => intro mods _; rfl
  | cons node rest ih =>
    intro mods h
    cases hr : node.ref with
    | inst m => exact absurd hr (h node (List.mem_cons_self _ _) m)
    | name s =>
      have hrest : ∀ node' ∈ rest, ∀ m, node'.ref ≠ ModuleRef.inst m :=
        fun node' hmem m => h node' (List.mem_cons_of_mem _ hmem) m
      simp [format_dag_loop, hr, ih mods hrest]

/-- C3: normalization maps each node by replacing an inline instance with its
identity name and passing names through (hence node count, order, and the
other fields are preserved and every resulting module reference is a
string); every extracted entry is an inline instance keyed by its identity
name; every inline instance's identity name is an extracted key; and an
already-pure graph comes back unchanged with no extracted modules. -/
theorem format_dag_spec (dag : List RawNode) :
    (format_dag dag).1 = dag.map norm_node ∧
    (∀ n m, (n, m) ∈ (format_dag dag).2 →
      n = m.name ∧ ∃ node ∈ dag, node.ref = ModuleRef.inst m) ∧
    (∀ node ∈ dag, ∀ m, node.ref = ModuleRef.inst m →
      m.name ∈ (format_dag dag).2.map Prod.fst) ∧
    ((∀ node ∈ dag, ∀ m, node.ref ≠ ModuleRef.inst m) →
      format_dag dag = (dag, [])) := by
  refine ⟨format_dag_loop_fst dag [], ?_, ?_, ?_⟩
  · intro n m h
    rcases format_dag_loop_snd_sound dag [] n m h with hmem | hnew
    · exact absurd hmem (List.not_mem_nil _)
    · exact hnew
  · intro node hmem m href
    exact format_dag_loop_keys_complete dag [] node hmem m href
  · intro h
    exact format_dag_loop_pure dag [] h

/-- A module instance named `enc` used as an inline graph entry. -/
def encModule : DagModule :=
  { name := "enc"
    hasGetSignal := false
    hasGetControls := false
    hasGetLossesDict := false
    call := fun _ _ => V.num 0
    getLossesDict := fun _ => V.dict [] }

/-- A one-node graph embedding `encModule` inline. -/
def inlineDag : List RawNode :=
  [{ ref := ModuleRef.inst encModule, input_keys := ["inputs/x"], output_keys := none }]

/-- A one-node graph referencing module `enc` purely by name. -/
def pureDag : List RawNode :=
  [{ ref := ModuleRef.name "enc", input_keys := ["inputs/x"], output_keys := none }]

/-- Witness for C3 at concrete graphs: the inline instance is rewritten to
its name and recorded under the key `enc`, and a pure graph is returned
unchanged with no extracted modules. -/
theorem format_dag_spec_witness :
    (format_dag inlineDag).1 = inlineDag.map norm_node ∧
    "enc" ∈ (format_dag inlineDag).2.map Prod.fst ∧
    format_dag pureDag = (pureDag, []) := by
  refine ⟨(format_dag_spec inlineDag).1, ?_, ?_⟩
  · exact (format_dag_spec inlineDag).2.2.1 _ (List.mem_cons_self _ _) encModule rfl
  · refine (format_dag_spec pureDag).2.2.2 ?_
    intro node h m heq
    simp only [pureDag, List.mem_singleton] at h
    subst h
    exact ModuleRef.noConfusion heq

theorem format_dag_loop_keys_nodup (dag : List RawNode) :
    ∀ mods, (mods.map Prod.fst).Nodup →
      ((format_dag_loop dag mods).2.map Prod.fst).Nodup := by
  induction dag with
  | nil => intro mods h; exact h
  | cons node rest ih =>
    intro mods h
    cases hr : node.ref with
    | inst m =>
      simp only [format_dag_loop, hr]
      exact ih _ (nodup_keys_dinsert m.name m mods h)
    | name s =>
      simp only [format_dag_loop, hr]
      exact ih _ h

/-- C5: the constructed registry is the union of the externally supplied
modules and the graph-extracted modules, with the extracted entry winning a
name collision (external first, then DAG-extracted); `module_names` is
exactly the registry's key list, and a name is registered iff it comes from
one of the two sources. -/
theorem dag_layer_registry (ext : List (String × DagModule)) (dag : List RawNode) :
    (∀ n m, dlookup n (format_dag dag).2 = some m →
      dlookup n (DAGLayer.init ext dag).modules = some m) ∧
    (∀ n, dlookup n (format_dag dag).2 = none →
      dlookup n (DAGLayer.init ext dag).modules = dlookup n ext) ∧
    (DAGLayer.init ext dag).module_names = (DAGLayer.init ext dag).modules.map Prod.fst ∧
    (∀ n, n ∈ (DAGLayer.init ext dag).module_names ↔
      n ∈ ext.map Prod.fst ∨ n ∈ (format_dag dag).2.map Prod.fst) := by
  have hnodup : (((format_dag dag).2).map Prod.fst).Nodup :=
    format_dag_loop_keys_nodup dag [] (by simp)
  refine ⟨?_, ?_, ?_, ?_⟩
  · intro n m hm
    simp only [DAGLayer.init]
    have h := dlookup_dupdate n ext (format_dag dag).2 hnodup
    rw [hm] at h
    exact h
  · intro n hn
    simp only [DAGLayer.init]
    have h := dlookup_dupdate n ext (format_dag dag).2 hnodup
    rw [hn] at h
    exact h
  · simp only [DAGLayer.init]
  · intro n
    simp only [DAGLayer.init]
    exact mem_keys_dupdate n ext (format_dag dag).2

/-- C4: per-node dispatch is by capability with precedence processor > loss
> default: a processor-capable module is always called with the
named-output flag (regardless of any loss capability), otherwise a
loss-capable module goes through `get_losses_dict`, otherwise the module is
called as a plain callable. -/
theorem call_module_precedence (m : DagModule) (args : List V) :
    (is_processor m = true → call_module m args = m.call args true) ∧
    (is_processor m = false → is_loss m = true →
      call_module m args = m.getLossesDict args) ∧
    (is_processor m = false → is_loss m = false →
      call_module m args = m.call args false) := by
  refine ⟨fun h => ?_, fun h1 h2 => ?_, fun h1 h2 => ?_⟩
  · simp [call_module, h]
  · simp [call_module, h1, h2]
  · simp [call_module, h1, h2]

/-- A module exposing both the processor capability and the loss capability
on top of its default call, to exercise dispatch precedence. -/
def procLossModule : DagModule :=
  { name := "both"
    hasGetSignal := true
    hasGetControls := true
    hasGetLossesDict := true
    call := fun _ flag => if flag then V.dict [("signal", V.num 1)] else V.num 0
    getLossesDict := fun _ => V.dict [("loss", V.num 7)] }

/-- Witness for C4: on a module exposing processor, loss, and default
surfaces at once, the executor picks the processor convention. -/
theorem call_module_precedence_witness :
    call_module procLossModule [] = procLossModule.call [] true :=
  (call_module_precedence procLossModule []).1 rfl

/-- Witness for C5 at concrete registries: on a name collision the
graph-extracted `enc` instance overwrites the externally supplied one, and a
collision-free external module stays bound to its external instance. -/
theorem dag_layer_registry_witness :
    dlookup "enc" (DAGLayer.init [("enc", procLossModule)] inlineDag).modules =
      some encModule ∧
    dlookup "double" (DAGLayer.init [("double", doubleModule)] inlineDag).modules =
      some doubleModule := by
  constructor
  · exact (dag_layer_registry [("enc", procLossModule)] inlineDag).1 "enc" encModule rfl
  · exact ((dag_layer_registry [("double", doubleModule)] inlineDag).2.1 "double" rfl).trans rfl

theorem run_dag_loop_verbose_indep (layer : DAGLayer) (nodes : List RawNode) :
    ∀ (outputs : List (String × V)) (last : Option (List (String × V)))
      (v₁ v₂ : Bool) (log₁ log₂ : List LogEntry),
      Except.map (fun r => (r.1, r.2.1)) (run_dag_loop layer nodes outputs last v₁ log₁) =
      Except.map (fun r => (r.1, r.2.1)) (run_dag_loop layer nodes outputs last v₂ log₂) := by
  induction nodes with
  | nil => intro outputs last v₁ v₂ log₁ log₂; rfl
  | cons node rest ih =>
    intro outputs last v₁ v₂ log₁ log₂
    cases hr : node.ref with
    | inst m => simp [run_dag_loop, hr]
    | name key =>
      simp only [run_dag_loop, hr]
      cases dlookup key layer.modules with
      | none => rfl
      | some m =>
        dsimp only
        cases resolve node.input_keys outputs with
        | error e => rfl
        | ok args =>
          dsimp only
          cases call_module m args with
          | dict d => exact ih _ _ _ _ _ _
          | num n =>
            dsimp only
            cases to_dict (V.num n) node.output_keys with
            | error e => rfl
            | ok mo => exact ih _ _ _ _ _ _
          | tup xs =>
            dsimp only
            cases to_dict (V.tup xs) node.output_keys with
            | error e => rfl
            | ok mo => exact ih _ _ _ _ _ _

/-- The diagnostic log attached to an execution result (empty for a failed
run, whose log is discarded). -/
def result_log : Except Err (List (String × V) × List LogEntry) → List LogEntry
  | Except.ok r => r.2
  | Except.error _ => []

/-- C2 counterexample: on the concrete double scenario, calling the layer
without passing `verbose` (`DAGLayer.call`) does not behave as
`verbose=False` — it emits diagnostics, because `run_dag` declares
`verbose: bool = True`. -/
theorem run_call_not_quiet :
    DAGLayer.call doubleLayer doubleInputs ≠ run_dag doubleLayer doubleInputs false :=
  fun h => absurd (congrArg result_log h) (by decide)

/-- C2 (amended): when the caller omits `verbose`, execution runs with
verbosity ON (`run_dag`'s declared default is `verbose=True`, not the
spec's `verbose=False`); the returned output namespace is nevertheless the
one a `verbose=False` run produces — only the emitted diagnostics differ. -/
theorem run_call_default_verbose (layer : DAGLayer) (inputs : List (String × V)) :
    DAGLayer.call layer inputs = run_dag layer inputs true ∧
    Except.map Prod.fst (DAGLayer.call layer inputs) =
      Except.map Prod.fst (run_dag layer inputs false) := by
  refine ⟨rfl, ?_⟩
  have h := run_dag_loop_verbose_indep layer layer.dag (init_outputs inputs) none true false [] []
  show Except.map Prod.fst (run_dag layer inputs true) =
    Except.map Prod.fst (run_dag layer inputs false)
  unfold run_dag
  cases h1 : run_dag_loop layer layer.dag (init_outputs inputs) none true [] with
  | error e =>
    cases h2 : run_dag_loop layer layer.dag (init_outputs inputs) none false [] with
    | error e' =>
      rw [h1, h2] at h
      simp only [Except.map] at h
      injection h with h
      subst h
      rfl
    | ok r =>
      rw [h1, h2] at h
      simp only [Except.map] at h
      exact Except.noConfusion h
  | ok r =>
    cases h2 : run_dag_loop layer layer.dag (init_outputs inputs) none false [] with
    | error e' =>
      rw [h1, h2] at h
      simp only [Except.map] at h
      exact Except.noConfusion h
    | ok r' =>
      obtain ⟨o, l, lg⟩ := r
      obtain ⟨o', l', lg'⟩ := r'
      rw [h1, h2] at h
      simp only [Except.map] at h
      injection h with h
      obtain ⟨ho, hl⟩ := Prod.mk.injEq .. ▸ h
      dsimp only
      subst ho
      have hl' : l = l' := by
        have := congrArg Prod.snd h
        simpa using this
      subst hl'
      cases l with
      | none => rfl
      | some mo => rfl

/-- C9: running the executor on an empty graph does not return the
inputs-only namespace; it fails, because the terminal aliasing reads the
loop local `module_outputs` that no iteration ever bound
(`UnboundLocalError` in Python). -/
theorem run_dag_empty_graph (layer : DAGLayer) (inputs : List (String × V)) (v : Bool)
    (h : layer.dag = []) :
    run_dag layer inputs v = Except.error Err.unboundLocal := by
  unfold run_dag
  rw [h]
  rfl

/-- Witness for C9: a layer built from an empty graph fails with the
unbound-local error on any input. -/
theorem run_dag_empty_graph_witness :
    run_dag (DAGLayer.init [] []) [] false = Except.error Err.unboundLocal :=
  run_dag_empty_graph (DAGLayer.init [] []) [] false rfl

theorem run_dag_loop_last_key (layer : DAGLayer) (nodes : List RawNode) :
    ∀ (outputs : List (String × V)) (last : Option (List (String × V)))
      (v : Bool) (log : List LogEntry) (outs : List (String × V))
      (lastOut : Option (List (String × V))) (log' : List LogEntry) (node : RawNode),
      run_dag_loop layer nodes outputs last v log = Except.ok (outs, lastOut, log') →
      nodes.getLast? = some node →
      ∃ k mo, node.ref = ModuleRef.name k ∧ lastOut = some mo ∧
        dlookup k outs = some (V.dict mo) := by
  induction nodes with
  | nil =>
    intro outputs last v log outs lastOut log' node _ hlast
    exact absurd hlast (by simp)
  | cons node' rest ih =>
    intro outputs last v log outs lastOut log' node hrun hlast
    cases hr : node'.ref with
    | inst m =>
      simp only [run_dag_loop, hr] at hrun
      exact Except.noConfusion hrun
    | name key =>
      simp only [run_dag_loop, hr] at hrun
      cases hdl : dlookup key layer.modules with
      | none =>
        rw [hdl] at hrun
        exact Except.noConfusion hrun
      | some m =>
        rw [hdl] at hrun
        dsimp only at hrun
        cases hres : resolve node'.input_keys outputs with
        | error e =>
          rw [hres] at hrun
          exact Except.noConfusion hrun
        | ok args =>
          rw [hres] at hrun
          dsimp only at hrun
          cases hwrap : (match call_module m args with
                         | V.dict d => Except.ok d
                         | x => to_dict x node'.output_keys) with
          | error e =>
            rw [hwrap] at hrun
            exact Except.noConfusion hrun
          | ok mo =>
            rw [hwrap] at hrun
            dsimp only at hrun
            cases rest with
            | nil =>
              simp only [run_dag_loop] at hrun
              injection hrun with hrun
              obtain ⟨ho, htail⟩ := Prod.mk.injEq .. ▸ hrun
              have hmo : some mo = lastOut := congrArg Prod.fst htail
              rw [List.getLast?_singleton] at hlast
              injection hlast with hlast
              subst hlast
              refine ⟨key, mo, hr, hmo.symm, ?_⟩
              rw [← ho, dlookup_dinsert]
              simp
            | cons r rs =>
              have hlast' : (r :: rs).getLast? = some node := by
                rw [← hlast]
                exact (List.getLast?_cons_cons ..).symm
              exact ih _ _ _ _ _ _ _ _ hrun hlast'

/-- C6: after a successful run over a non-empty graph, the reserved key
`out` of the returned namespace holds the same output mapping as the entry
stored under the last node's module name (in the pure embedding, aliasing
the very same Python object is modelled as equality of the stored value). -/
theorem run_dag_out_aliases_last (layer : DAGLayer) (inputs : List (String × V)) (v : Bool)
    (ns : List (String × V)) (log : List LogEntry) (node : RawNode)
    (hrun : run_dag layer inputs v = Except.ok (ns, log))
    (hlast : layer.dag.getLast? = some node) :
    ∃ k mo, node.ref = ModuleRef.name k ∧
      dlookup "out" ns = some (V.dict mo) ∧ dlookup k ns = some (V.dict mo) := by
  unfold run_dag at hrun
  cases hloop : run_dag_loop layer layer.dag (init_outputs inputs) none v [] with
  | error e =>
    rw [hloop] at hrun
    exact Except.noConfusion hrun
  | ok r =>
    obtain ⟨outs, lastOut, log₂⟩ := r
    rw [hloop] at hrun
    dsimp only at hrun
    cases lastOut with
    | none => exact Except.noConfusion hrun
    | some mo =>
      obtain ⟨k, mo', hk, hmo, hdl⟩ :=
        run_dag_loop_last_key layer layer.dag (init_outputs inputs) none v []
          outs (some mo) log₂ node hloop hlast
      injection hmo with hmo
      subst hmo
      injection hrun with hrun
      have hns : dinsert "out" (V.dict mo) outs = ns := congrArg Prod.fst hrun
      subst hns
      refine ⟨k, mo, hk, ?_, ?_⟩
      · rw [dlookup_dinsert]
        simp
      · rw [dlookup_dinsert]
        by_cases hko : "out" = k
        · subst hko
          simp
        · simp [hko, hdl]

/-- Witness for C6 at the concrete double scenario: `out` and the last
node's entry `double` both hold `{"y": 6}`. -/
theorem run_dag_out_aliases_last_witness :
    ∃ k mo, doubleNode.ref = ModuleRef.name k ∧
      dlookup "out" doubleExpected = some (V.dict mo) ∧
      dlookup k doubleExpected = some (V.dict mo) :=
  run_dag_out_aliases_last doubleLayer doubleInputs false doubleExpected [] doubleNode
    rfl rfl

theorem run_dag_loop_append (layer : DAGLayer) (xs : List RawNode) :
    ∀ (ys : List RawNode) (outputs : List (String × V))
      (last : Option (List (String × V))) (v : Bool) (log : List LogEntry),
      run_dag_loop layer (xs ++ ys) outputs last v log =
        match run_dag_loop layer xs outputs last v log with
        | Except.error e => Except.error e
        | Except.ok r => run_dag_loop layer ys r.1 r.2.1 v r.2.2 := by
  induction xs with
  | nil => intro ys outputs last v log; rfl
  | cons node rest ih =>
    intro ys outputs last v log
    cases hr : node.ref with
    | inst m => simp [run_dag_loop, hr]
    | name key =>
      simp only [List.cons_append, run_dag_loop, hr]
      cases dlookup key layer.modules with
      | none => rfl
      | some m =>
        dsimp only
        cases resolve node.input_keys outputs with
        | error e => rfl
        | ok args =>
          dsimp only
          cases call_module m args with
          | dict d => exact ih _ _ _ _ _
          | num n =>
            dsimp only
            cases to_dict (V.num n) node.output_keys with
            | error e => rfl
            | ok mo => exact ih _ _ _ _ _
          | tup ts =>
            dsimp only
            cases to_dict (V.tup ts) node.output_keys with
            | error e => rfl
            | ok mo => exact ih _ _ _ _ _

theorem run_dag_loop_aborts (layer : DAGLayer) (node : RawNode) (rest : List RawNode)
    (outputs : List (String × V)) (last : Option (List (String × V)))
    (v : Bool) (log : List LogEntry) (k : String) (m : DagModule) (s : String)
    (hk : node.ref = ModuleRef.name k)
    (hm : dlookup k layer.modules = some m)
    (hres : resolve node.input_keys outputs = Except.error (Err.keyError s)) :
    run_dag_loop layer (node :: rest) outputs last v log =
      Except.error (Err.keyError s) := by
  simp only [run_dag_loop, hk]
  rw [hm]
  dsimp only
  rw [hres]

/-- C7: if, at the moment a node is reached, one of its input keys fails the
nested lookup against the accumulated namespace, the whole run returns that
lookup error: the nodes after the failing one are irrelevant to the result
and no output namespace is produced. -/
theorem run_dag_missing_key (layer : DAGLayer) (pre post : List RawNode) (node : RawNode)
    (inputs : List (String × V)) (v : Bool) (outs : List (String × V))
    (lastv : Option (List (String × V))) (lg : List LogEntry)
    (k s : String) (m : DagModule)
    (hdag : layer.dag = pre ++ node :: post)
    (hpre : run_dag_loop layer pre (init_outputs inputs) none v [] =
      Except.ok (outs, lastv, lg))
    (hk : node.ref = ModuleRef.name k)
    (hm : dlookup k layer.modules = some m)
    (hres : resolve node.input_keys outs = Except.error (Err.keyError s)) :
    run_dag layer inputs v = Except.error (Err.keyError s) := by
  unfold run_dag
  rw [hdag, run_dag_loop_append, hpre]
  dsimp only
  rw [run_dag_loop_aborts layer node post outs lastv v lg k m s hk hm hres]

/-- A one-node graph whose only input key addresses the non-existent path
`inputs/zzz`. -/
def badKeyNode : RawNode :=
  { ref := ModuleRef.name "double", input_keys := ["inputs/zzz"], output_keys := some ["y"] }

/-- The layer of the missing-key scenario. -/
def badKeyLayer : DAGLayer :=
  DAGLayer.init [("double", doubleModule)] [badKeyNode]

/-- Witness for C7: with input `{"x": 3}`, the node reading `inputs/zzz`
makes the whole run fail with the lookup error for segment `zzz`. -/
theorem run_dag_missing_key_witness :
    run_dag badKeyLayer doubleInputs false = Except.error (Err.keyError "zzz") :=
  run_dag_missing_key badKeyLayer [] [] badKeyNode doubleInputs false
    (init_outputs doubleInputs) none [] "double" "zzz" doubleModule
    rfl rfl rfl rfl rfl

/-- C10: when the runtime input mapping itself binds the key `inputs`, the
flat backward-compatibility merge overwrites the reserved nested `inputs`
entry with the caller's value, so any nested lookup starting with the
segment `inputs` subsequently resolves against that caller value instead of
the wrapped raw input mapping. -/
theorem inputs_key_shadowing (inputs : List (String × V)) (v : V) (rest : List String)
    (hnodup : (inputs.map Prod.fst).Nodup)
    (hv : dlookup "inputs" inputs = some v) :
    dlookup "inputs" (init_outputs inputs) = some v ∧
    nested_path ("inputs" :: rest) (V.dict (init_outputs inputs)) = nested_path rest v := by
  have h1 : dlookup "inputs" (init_outputs inputs) = some v := by
    unfold init_outputs
    have h := dlookup_dupdate "inputs" [("inputs", V.dict inputs)] inputs hnodup
    rw [hv] at h
    exact h
  refine ⟨h1, ?_⟩
  simp only [nested_path]
  rw [h1]

/-- An input mapping that itself binds the reserved key `inputs`. -/
def shadowInputs : List (String × V) :=
  [("inputs", V.dict [("x", V.num 1)]), ("x", V.num 3)]

/-- Witness for C10: with `{"inputs": {"x": 1}, "x": 3}` as runtime input,
the namespace's `inputs` entry is the caller's `{"x": 1}` and the path
`inputs/x` resolves inside it. -/
theorem inputs_key_shadowing_witness :
    dlookup "inputs" (init_outputs shadowInputs) = some (V.dict [("x", V.num 1)]) ∧
    nested_path ["inputs", "x"] (V.dict (init_outputs shadowInputs)) =
      nested_path ["x"] (V.dict [("x", V.num 1)]) :=
  inputs_key_shadowing shadowInputs (V.dict [("x", V.num 1)]) ["x"] (by decide) rfl
